import Mathlib

/-!
Shallow embedding of `src/os_simulator.py` (an educational CPU-scheduling
simulator) and proofs about its claimed properties.

Modelling conventions:
* Python machine integers are modelled as `Int` (no overflow is relevant here).
* `time.time()` is modelled by a deterministic strictly increasing integer
  clock stored in the session state: every call returns the current clock
  value and advances it by one.  (The spec itself recommends abstracting the
  wall clock behind an injectable deterministic clock.)
* The `rr_queue` deque of Python object references is modelled as a list of
  pids looked up in the process table; mutation of a `Process` object is
  modelled by updating the first table entry with the matching pid, which is
  exactly the object `get_process_by_pid` / the selection returned.
* `print`ed notices are modelled as explicit result values; the per-cycle
  trace line is modelled as a `CycleEvent`.
* The unbounded `while True` loop of `run_simulation` is modelled with an
  explicit fuel parameter; a fuel-exhaustion outcome is distinguished from
  all genuine halt outcomes of the Python loop, so any result whose reason
  is not `outOfFuel` is the result of the real (terminating) loop.
-/

/-- Lifecycle states of a process (`class ProcessState(Enum)`). -/
inductive ProcessState where
  | pronto
  | executando
  | bloqueado
  | finalizado
deriving DecidableEq, Repr

/-- One simulated process (`class Process`), after construction-time clamping
of `cpu_time` (`self.cpu_time = max(1, cpu_time)`). -/
structure Process where
  pid : Nat
  name : String
  cpu_time : Int
  cpu_remaining : Int
  memory : Int
  priority : Int
  state : ProcessState
  arrival_time : Int
  finish_time : Option Int
deriving DecidableEq, Repr

/-- `Process.__init__`: clamps the demand to at least 1, starts `Ready`
with full remaining demand, stamps the arrival time, no finish time. -/
def Process.init (pid : Nat) (name : String) (cpu_time memory priority : Int)
    (now : Int) : Process :=
  { pid := pid
    name := name
    cpu_time := max 1 cpu_time
    cpu_remaining := max 1 cpu_time
    memory := memory
    priority := priority
    state := .pronto
    arrival_time := now
    finish_time := none }

/-- `Process.turnaround_time`.  Python tests `if self.finish_time:` which is
*truthiness*: both `None` and `0.0` fail the test. -/
def Process.turnaround_time (p : Process) : Option Int :=
  match p.finish_time with
  | some f => if f ≠ 0 then some (f - p.arrival_time) else none
  | none => none

/-- `Process.waiting_time`.  Python tests `if self.turnaround_time:`, again
truthiness: a turnaround of `0` also yields `None`. -/
def Process.waiting_time (p : Process) : Option Int :=
  match p.turnaround_time with
  | some t => if t ≠ 0 then some (t - p.cpu_time) else none
  | none => none

/-- The session state (`class OperatingSystem`), plus the abstract clock. -/
structure OperatingSystem where
  processes : List Process
  next_pid : Nat
  quantum : Int
  rr_queue : List Nat
  clock : Int
deriving DecidableEq, Repr

/-- `OperatingSystem.__init__(quantum=2)`. -/
def OperatingSystem.init (quantum : Int) : OperatingSystem :=
  { processes := [], next_pid := 1, quantum := quantum, rr_queue := [], clock := 0 }

/-- `get_process_by_pid`: first table entry with the given pid. -/
def get_process_by_pid (os : OperatingSystem) (pid : Nat) : Option Process :=
  os.processes.find? (fun p => p.pid == pid)

/-- Replace the first table entry carrying `pid` with `newP`.  This models
Python's in-place mutation of the object that a pid lookup returned. -/
def setFirst : List Process → Nat → Process → List Process
  | [], _, _ => []
  | q :: qs, pid, newP => if q.pid = pid then newP :: qs else q :: setFirst qs pid newP

/-- `create_process`: builds the process with the next sequential pid,
appends it to the table and to the Round-Robin queue, bumps the pid
counter; returns the new process together with the new session state. -/
def create_process (os : OperatingSystem) (name : String)
    (cpu_time memory priority : Int) :
    Process × OperatingSystem :=
  let p := Process.init os.next_pid name cpu_time memory priority os.clock
  (p, { os with
          processes := os.processes ++ [p]
          rr_queue := os.rr_queue ++ [p.pid]
          next_pid := os.next_pid + 1
          clock := os.clock + 1 })

/-- Outcome notices of `block_process`. -/
inductive BlockResult where
  | notFound
  | alreadyFinished
  | blocked
deriving DecidableEq, Repr

/-- `block_process`: not-found and already-finished are reported distinctly
and leave the state untouched; otherwise the process becomes `Blocked`. -/
def block_process (os : OperatingSystem) (pid : Nat) : BlockResult × OperatingSystem :=
  match get_process_by_pid os pid with
  | none => (.notFound, os)
  | some p =>
    if p.state = .finalizado then (.alreadyFinished, os)
    else (.blocked,
      { os with processes := setFirst os.processes pid { p with state := .bloqueado } })

/-- Outcome notices of `unblock_process`. -/
inductive UnblockResult where
  | notFound
  | unblocked
  | notBlocked
deriving DecidableEq, Repr

/-- `unblock_process`: only a `Blocked` process changes (to `Ready`). -/
def unblock_process (os : OperatingSystem) (pid : Nat) : UnblockResult × OperatingSystem :=
  match get_process_by_pid os pid with
  | none => (.notFound, os)
  | some p =>
    if p.state = .bloqueado then
      (.unblocked,
        { os with processes := setFirst os.processes pid { p with state := .pronto } })
    else (.notBlocked, os)

/-- Outcome notices of `kill_process`.  Note the Python method has *no*
already-finished branch: any found process is re-terminated. -/
inductive KillResult where
  | notFound
  | killed
deriving DecidableEq, Repr

/-- `kill_process`: if found (whatever its state), set `Finished`, zero the
remaining demand and stamp `finish_time` with the current clock. -/
def kill_process (os : OperatingSystem) (pid : Nat) : KillResult × OperatingSystem :=
  match get_process_by_pid os pid with
  | none => (.notFound, os)
  | some p =>
    (.killed,
      { os with
          processes := setFirst os.processes pid
            { p with state := .finalizado, cpu_remaining := 0,
                     finish_time := some os.clock }
          clock := os.clock + 1 })

/-- `get_ready_processes`: table-order filter of the `Ready` processes. -/
def get_ready_processes (os : OperatingSystem) : List Process :=
  os.processes.filter (fun p => p.state == .pronto)

/-- Python's `min(ready, key=...)`: the first element attaining the minimum
key wins (later elements replace the best only when strictly smaller). -/
def minByFirst (key : Process → Int) : List Process → Option Process
  | [] => none
  | p :: ps => some (ps.foldl (fun best q => if key q < key best then q else best) p)

/-- `select_next_process_fifo`: head of the ready list, if any. -/
def select_next_process_fifo (os : OperatingSystem) : Option Process :=
  (get_ready_processes os).head?

/-- `select_next_process_sjf`: ready process of minimum remaining demand. -/
def select_next_process_sjf (os : OperatingSystem) : Option Process :=
  minByFirst (fun p => p.cpu_remaining) (get_ready_processes os)

/-- `select_next_process_prio`: ready process of minimum priority value. -/
def select_next_process_prio (os : OperatingSystem) : Option Process :=
  minByFirst (fun p => p.priority) (get_ready_processes os)

/-- The `while self.rr_queue:` loop of `select_next_process_rr`: pop heads
until a `Ready` process appears; non-`Ready` pops are discarded.  Returns
the selection together with the queue as the loop left it. -/
def selectRRAux (procs : List Process) : List Nat → Option Process × List Nat
  | [] => (none, [])
  | pid :: rest =>
    match procs.find? (fun p => p.pid == pid) with
    | some p => if p.state = .pronto then (some p, rest) else selectRRAux procs rest
    | none => selectRRAux procs rest

/-- `select_next_process_rr`, including its mutation of `rr_queue`. -/
def select_next_process_rr (os : OperatingSystem) : Option Process × List Nat :=
  selectRRAux os.processes os.rr_queue

/-- The `rr` branch of `run_simulation` (selection followed by
`self.rr_queue.append(current)` when a process was selected). -/
def rrSelectAndRequeue (os : OperatingSystem) : Option Process × OperatingSystem :=
  match select_next_process_rr os with
  | (some p, q) => (some p, { os with rr_queue := q ++ [p.pid] })
  | (none, q) => (none, { os with rr_queue := q })

/-- One trace line `→ Ciclo {cycle}: Executando {name} (PID {pid}) |
Restante: {remaining}`. -/
structure CycleEvent where
  cycle : Nat
  pid : Nat
  name : String
  remaining : Int
deriving DecidableEq, Repr

/-- How a `run_simulation` call ended. `allFinished` and `deadlock` are the
two empty-ready `break`s, `selectionNone` is the `if not current: break`,
`invalidAlgorithm` is the early `return`, and `outOfFuel` is the modelling
artifact for insufficient fuel. -/
inductive HaltReason where
  | allFinished
  | deadlock
  | selectionNone
  | invalidAlgorithm
  | outOfFuel
deriving DecidableEq, Repr

/-- Result of a `run_simulation` call.  `metricsShown` records whether the
closing `Simulação concluída em {cycle} ciclos` line and `show_metrics`
ran (they do on every `break`, not on the invalid-algorithm `return`). -/
structure RunResult where
  os : OperatingSystem
  cycles : Nat
  trace : List CycleEvent
  reason : HaltReason
  metricsShown : Bool
deriving DecidableEq, Repr

/-- Executing one CPU unit on the selected (Ready) process `p`: decrement
its remaining demand; if it reached 0 (or below), mark `Finished` and stamp
the finish time, otherwise put it back to `Ready`. -/
def executeOneCycle (os : OperatingSystem) (p : Process) : OperatingSystem :=
  let newRem := p.cpu_remaining - 1
  if newRem ≤ 0 then
    { os with
        processes := setFirst os.processes p.pid
          { p with state := .finalizado, cpu_remaining := newRem,
                   finish_time := some os.clock }
        clock := os.clock + 1 }
  else
    { os with
        processes := setFirst os.processes p.pid
          { p with state := .pronto, cpu_remaining := newRem } }

/-- The `if algorithm == "fifo": ... elif ... elif ... elif "rr": ...`
selection chain of `run_simulation` (reached only for the four valid names;
the final branch is the `rr` case). -/
def selectByAlg (alg : String) (os : OperatingSystem) : Option Process × OperatingSystem :=
  if alg = "fifo" then (select_next_process_fifo os, os)
  else if alg = "sjf" then (select_next_process_sjf os, os)
  else if alg = "prio" then (select_next_process_prio os, os)
  else rrSelectAndRequeue os

/-- The `while True:` loop body of `run_simulation`, with fuel.  `alg` is the
already-lowercased algorithm name. -/
def runAux (alg : String) : Nat → OperatingSystem → Nat → List CycleEvent → RunResult
  | 0, os, cycle, trace => ⟨os, cycle, trace, .outOfFuel, false⟩
  | fuel + 1, os, cycle, trace =>
    let ready := get_ready_processes os
    if ready.isEmpty then
      if (os.processes.filter (fun p => !(p.state == .finalizado))).isEmpty then
        ⟨os, cycle, trace, .allFinished, true⟩
      else
        ⟨os, cycle, trace, .deadlock, true⟩
    else
      if alg = "fifo" ∨ alg = "sjf" ∨ alg = "prio" ∨ alg = "rr" then
        match selectByAlg alg os with
        | (none, os₁) => ⟨os₁, cycle, trace, .selectionNone, true⟩
        | (some p, os₁) =>
          let cycle₁ := cycle + 1
          let ev : CycleEvent := ⟨cycle₁, p.pid, p.name, p.cpu_remaining - 1⟩
          runAux alg fuel (executeOneCycle os₁ p) cycle₁ (trace ++ [ev])
      else
        ⟨os, cycle, trace, .invalidAlgorithm, false⟩

/-- `run_simulation(algorithm)`: lowercases the name once, then runs the
loop from cycle 0 with an empty trace. -/
def run_simulation (algorithm : String) (fuel : Nat) (os : OperatingSystem) : RunResult :=
  runAux algorithm.toLower fuel os 0 []

/-- A pid is "ready" in a table when the pid lookup (as performed by the
Round-Robin loop) yields a process in state `Ready`. -/
def isReadyPid (procs : List Process) (pid : Nat) : Bool :=
  match procs.find? (fun p => p.pid == pid) with
  | some p => p.state == .pronto
  | none => false

/-- The state of the process a pid resolves to, if any. -/
def state_of (os : OperatingSystem) (pid : Nat) : Option ProcessState :=
  (get_process_by_pid os pid).map Process.state

/-- Per-process data invariant: demands are well-formed, the completion
timestamp is present exactly on `Finished` processes, a finished process
has no remaining demand, and an unfinished one still owes at least one
unit. -/
def procInv (p : Process) : Prop :=
  1 ≤ p.cpu_time ∧ 0 ≤ p.cpu_remaining ∧ p.cpu_remaining ≤ p.cpu_time ∧
  (p.state = .finalizado ↔ p.finish_time.isSome = true) ∧
  (p.state = .finalizado → p.cpu_remaining = 0) ∧
  (p.state ≠ .finalizado → 1 ≤ p.cpu_remaining)

/-- Session invariant: every process satisfies `procInv`, pids are unique,
and all pids are below the allocation counter. -/
def SessionInv (os : OperatingSystem) : Prop :=
  (∀ p ∈ os.processes, procInv p) ∧
  (os.processes.map Process.pid).Nodup ∧
  (∀ p ∈ os.processes, p.pid < os.next_pid)

/-- States reachable from a fresh session by the public operations.  The
`run` constructor allows every fuel value, so in particular every
intermediate state "after k cycles" of a run is itself reachable. -/
inductive Reachable : OperatingSystem → Prop where
  | init (quantum : Int) : Reachable (OperatingSystem.init quantum)
  | create (os : OperatingSystem) (name : String) (cpu_time memory priority : Int) :
      Reachable os → Reachable (create_process os name cpu_time memory priority).2
  | block (os : OperatingSystem) (pid : Nat) :
      Reachable os → Reachable (block_process os pid).2
  | unblock (os : OperatingSystem) (pid : Nat) :
      Reachable os → Reachable (unblock_process os pid).2
  | kill (os : OperatingSystem) (pid : Nat) :
      Reachable os → Reachable (kill_process os pid).2
  | run (os : OperatingSystem) (algorithm : String) (fuel : Nat) :
      Reachable os → Reachable (run_simulation algorithm fuel os).os

/-- One command of the external dispatcher, for whole-session statements. -/
inductive Op where
  | create (name : String) (cpu_time memory priority : Int)
  | block (pid : Nat)
  | unblock (pid : Nat)
  | kill (pid : Nat)
  | run (algorithm : String) (fuel : Nat)

/-- The observable output of one command (the printed notice / returned
value / run trace). -/
inductive OpOutput where
  | created (p : Process)
  | blockRes (r : BlockResult)
  | unblockRes (r : UnblockResult)
  | killRes (r : KillResult)
  | runRes (cycles : Nat) (trace : List CycleEvent) (reason : HaltReason) (metricsShown : Bool)
deriving DecidableEq, Repr

/-- Execute one command, returning the new session state and its output. -/
def execOp (os : OperatingSystem) : Op → OperatingSystem × OpOutput
  | .create name cpu_time memory priority =>
    let (p, os₁) := create_process os name cpu_time memory priority
    (os₁, .created p)
  | .block pid => let (r, os₁) := block_process os pid; (os₁, .blockRes r)
  | .unblock pid => let (r, os₁) := unblock_process os pid; (os₁, .unblockRes r)
  | .kill pid => let (r, os₁) := kill_process os pid; (os₁, .killRes r)
  | .run algorithm fuel =>
    let r := run_simulation algorithm fuel os
    (r.os, .runRes r.cycles r.trace r.reason r.metricsShown)

/-- Execute a command sequence, collecting the outputs. -/
def execOps (os : OperatingSystem) : List Op → OperatingSystem × List OpOutput
  | [] => (os, [])
  | op :: ops =>
    let (os₁, out) := execOp os op
    let (os₂, outs) := execOps os₁ ops
    (os₂, out :: outs)

/-- Session for the Round-Robin acceptance trace: P1 and P2, demand 2 each. -/
def osRR : OperatingSystem :=
  (create_process (create_process (OperatingSystem.init 2) "P1" 2 100 3).2 "P2" 2 100 3).2

/-- A session holding one already-killed process (P1, demand 1). -/
def osKilled : OperatingSystem :=
  (kill_process (create_process (OperatingSystem.init 2) "P1" 1 100 3).2 1).2

/-- A session with one ready process P1 (demand 2). -/
def osOneReady : OperatingSystem :=
  (create_process (OperatingSystem.init 2) "P1" 2 100 3).2

/-- Session preparing the Round-Robin starvation scenario: P1 (demand 2)
blocked, P2 (demand 1). -/
def osRRBlocked : OperatingSystem :=
  (block_process (create_process (create_process (OperatingSystem.init 2) "P1" 2 100 3).2
    "P2" 1 100 3).2 1).2

/-- The starvation state: after `run(rr)` discarded blocked P1 from the
rotation queue and finished P2, P1 is unblocked — it is Ready, but no
longer in the rotation queue. -/
def osStarve : OperatingSystem :=
  (unblock_process (run_simulation "rr" 10 osRRBlocked).os 1).2

/-- A process record whose completion timestamp equals its arrival time
(possible whenever two clock readings coincide). -/
def pSameInstant : Process :=
  { pid := 1, name := "P1", cpu_time := 5, cpu_remaining := 0, memory := 100,
    priority := 3, state := .finalizado, arrival_time := 7, finish_time := some 7 }

/-- A finished process with distinct, nonzero timestamps. -/
def pNormalFinish : Process :=
  { pid := 1, name := "P1", cpu_time := 5, cpu_remaining := 0, memory := 100,
    priority := 3, state := .finalizado, arrival_time := 2, finish_time := some 9 }

/-- The starvation state computed with the loop body directly (used to
evaluate `osStarve` by kernel reduction). -/
def osStarveExec : OperatingSystem :=
  (unblock_process (runAux "rr" 10 osRRBlocked 0 []).os 1).2

/-- The process record P1 holds after `create("P1", 1, 100, 3)` followed by
`kill(1)` (the single process of `osKilled`). -/
def pKilled : Process :=
  { pid := 1, name := "P1", cpu_time := 1, cpu_remaining := 0, memory := 100,
    priority := 3, state := .finalizado, arrival_time := 0, finish_time := some 1 }

/-- The process record of P2 inside `osRRBlocked`. -/
def pW2 : Process :=
  { pid := 2, name := "P2", cpu_time := 1, cpu_remaining := 1, memory := 100,
    priority := 3, state := .pronto, arrival_time := 1, finish_time := none }

/-- The process record of P1 inside `osOneReady`. -/
def pOneReady : Process :=
  { pid := 1, name := "P1", cpu_time := 2, cpu_remaining := 2, memory := 100,
    priority := 3, state := .pronto, arrival_time := 0, finish_time := none }

/-! ### Basic lemmas about the table helpers -/

theorem mem_setFirst {l : List Process} {pid : Nat} {newP q : Process}
    (hq : q ∈ setFirst l pid newP) : q ∈ l ∨ q = newP := by
  induction l with
  | nil => simp [setFirst] at hq
  | cons p ps ih =>
    simp only [setFirst] at hq
    by_cases h : p.pid = pid
    · rw [if_pos h] at hq
      rcases List.mem_cons.1 hq with h1 | h1
      · exact Or.inr h1
      · exact Or.inl (List.mem_cons_of_mem _ h1)
    · rw [if_neg h] at hq
      rcases List.mem_cons.1 hq with h1 | h1
      · exact Or.inl (h1 ▸ List.mem_cons_self _ _)
      · rcases ih h1 with h2 | h2
        · exact Or.inl (List.mem_cons_of_mem _ h2)
        · exact Or.inr h2

theorem map_pid_setFirst (pid : Nat) {l : List Process} {newP : Process}
    (hpid : newP.pid = pid) :
    (setFirst l pid newP).map Process.pid = l.map Process.pid := by
  induction l with
  | nil => rfl
  | cons p ps ih =>
    simp only [setFirst]
    by_cases h : p.pid = pid
    · rw [if_pos h]
      simp [hpid, h]
    · rw [if_neg h]
      simp [ih]

theorem get_process_spec {os : OperatingSystem} {pid : Nat} {p : Process}
    (h : get_process_by_pid os pid = some p) : p ∈ os.processes ∧ p.pid = pid := by
  unfold get_process_by_pid at h
  refine ⟨List.mem_of_find?_eq_some h, ?_⟩
  have h1 := List.find?_some h
  simpa using h1

theorem find?_setFirst_self {l : List Process} {pid : Nat} {p newP : Process}
    (h : l.find? (fun q => q.pid == pid) = some p) (hpid : newP.pid = pid) :
    (setFirst l pid newP).find? (fun q => q.pid == pid) = some newP := by
  induction l with
  | nil => simp at h
  | cons p₀ ps ih =>
    simp only [setFirst]
    by_cases h0 : p₀.pid = pid
    · rw [if_pos h0]
      simp [List.find?, hpid]
    · rw [if_neg h0]
      rw [List.find?] at h ⊢
      have hb : (p₀.pid == pid) = false := by simpa using h0
      rw [hb] at h ⊢
      exact ih h

theorem find?_setFirst_ne {l : List Process} {pid pid' : Nat} {newP : Process}
    (hne : pid' ≠ pid) (hpid : newP.pid = pid) :
    (setFirst l pid newP).find? (fun q => q.pid == pid') =
      l.find? (fun q => q.pid == pid') := by
  induction l with
  | nil => rfl
  | cons p₀ ps ih =>
    simp only [setFirst]
    by_cases h0 : p₀.pid = pid
    · rw [if_pos h0]
      have hb : (newP.pid == pid') = false := by
        simp only [beq_eq_false_iff_ne, ne_eq, hpid]
        exact fun h => hne h.symm
      have hb' : (p₀.pid == pid') = false := by
        simp only [beq_eq_false_iff_ne, ne_eq, h0]
        exact fun h => hne h.symm
      rw [List.find?_cons, List.find?_cons]
      simp only [hb, hb']
    · rw [if_neg h0]
      rw [List.find?_cons, List.find?_cons]
      by_cases h1 : p₀.pid = pid'
      · have hb : (p₀.pid == pid') = true := by simpa using h1
        simp only [hb]
      · have hb : (p₀.pid == pid') = false := by simpa using h1
        simp only [hb]
        exact ih

theorem find?_eq_of_mem_nodup {l : List Process} {p : Process}
    (hmem : p ∈ l) (hnd : (l.map Process.pid).Nodup) :
    l.find? (fun q => q.pid == p.pid) = some p := by
  induction l with
  | nil => simp at hmem
  | cons q qs ih =>
    rw [List.map_cons, List.nodup_cons] at hnd
    rcases List.mem_cons.1 hmem with h1 | h1
    · subst h1
      simp [List.find?]
    · rw [List.find?]
      have hq : (q.pid == p.pid) = false := by
        simp only [beq_eq_false_iff_ne, ne_eq]
        intro heq
        exact hnd.1 (heq ▸ List.mem_map_of_mem Process.pid h1)
      rw [hq]
      exact ih h1 hnd.2

theorem mem_ready {os : OperatingSystem} {p : Process} :
    p ∈ get_ready_processes os ↔ p ∈ os.processes ∧ p.state = .pronto := by
  unfold get_ready_processes
  simp [List.mem_filter]

theorem foldl_minBy_mem (key : Process → Int) (l : List Process) (p : Process) :
    l.foldl (fun best q => if key q < key best then q else best) p = p ∨
    l.foldl (fun best q => if key q < key best then q else best) p ∈ l := by
  induction l generalizing p with
  | nil => exact Or.inl rfl
  | cons q qs ih =>
    simp only [List.foldl]
    by_cases h : key q < key p
    · rw [if_pos h]
      rcases ih q with h1 | h1
      · rw [h1]
        exact Or.inr (List.mem_cons_self _ _)
      · exact Or.inr (List.mem_cons_of_mem _ h1)
    · rw [if_neg h]
      rcases ih p with h1 | h1
      · exact Or.inl h1
      · exact Or.inr (List.mem_cons_of_mem _ h1)

theorem minByFirst_mem {key : Process → Int} {l : List Process} {p : Process}
    (h : minByFirst key l = some p) : p ∈ l := by
  cases l with
  | nil => simp [minByFirst] at h
  | cons q qs =>
    simp only [minByFirst, Option.some.injEq] at h
    rcases foldl_minBy_mem key qs q with h1 | h1
    · rw [← h, h1]
      exact List.mem_cons_self _ _
    · rw [← h]
      exact List.mem_cons_of_mem _ h1

theorem selectRRAux_some_spec {procs : List Process} {q q' : List Nat} {p : Process}
    (h : selectRRAux procs q = (some p, q')) :
    p ∈ procs ∧ p.state = .pronto ∧
    ∃ pre, q = pre ++ p.pid :: q' ∧ ∀ x ∈ pre, isReadyPid procs x = false := by
  induction q with
  | nil => simp [selectRRAux] at h
  | cons pid rest ih =>
    rw [selectRRAux] at h
    cases hf : procs.find? (fun pp => pp.pid == pid) with
    | some r =>
      rw [hf] at h
      dsimp only at h
      by_cases hs : r.state = .pronto
      · rw [if_pos hs] at h
        simp only [Prod.mk.injEq, Option.some.injEq] at h
        obtain ⟨hp, hq⟩ := h
        have hpid : r.pid = pid := by simpa using List.find?_some hf
        subst hp
        subst hq
        exact ⟨List.mem_of_find?_eq_some hf, hs,
          [], by simp [hpid], by simp⟩
      · rw [if_neg hs] at h
        obtain ⟨hmem, hst, pre, hdec, hpre⟩ := ih h
        refine ⟨hmem, hst, pid :: pre, by simp [hdec], ?_⟩
        intro x hx
        rcases List.mem_cons.1 hx with h1 | h1
        · subst h1
          unfold isReadyPid
          rw [hf]
          simpa using hs
        · exact hpre x h1
    | none =>
      rw [hf] at h
      dsimp only at h
      obtain ⟨hmem, hst, pre, hdec, hpre⟩ := ih h
      refine ⟨hmem, hst, pid :: pre, by simp [hdec], ?_⟩
      intro x hx
      rcases List.mem_cons.1 hx with h1 | h1
      · subst h1
        unfold isReadyPid
        rw [hf]
      · exact hpre x h1

theorem selectRRAux_none_spec {procs : List Process} {q q' : List Nat}
    (h : selectRRAux procs q = (none, q')) :
    q' = [] ∧ ∀ x ∈ q, isReadyPid procs x = false := by
  induction q with
  | nil =>
    rw [selectRRAux] at h
    simp only [Prod.mk.injEq] at h
    exact ⟨h.2.symm, by simp⟩
  | cons pid rest ih =>
    rw [selectRRAux] at h
    cases hf : procs.find? (fun pp => pp.pid == pid) with
    | some r =>
      rw [hf] at h
      dsimp only at h
      by_cases hs : r.state = .pronto
      · rw [if_pos hs] at h
        exact absurd (congrArg Prod.fst h) (by simp)
      · rw [if_neg hs] at h
        obtain ⟨hq, hall⟩ := ih h
        refine ⟨hq, ?_⟩
        intro x hx
        rcases List.mem_cons.1 hx with h1 | h1
        · subst h1
          unfold isReadyPid
          rw [hf]
          simpa using hs
        · exact hall x h1
    | none =>
      rw [hf] at h
      dsimp only at h
      obtain ⟨hq, hall⟩ := ih h
      refine ⟨hq, ?_⟩
      intro x hx
      rcases List.mem_cons.1 hx with h1 | h1
      · subst h1
        unfold isReadyPid
        rw [hf]
      · exact hall x h1

/-! ### The session invariant is preserved by every operation -/

theorem sessionInv_congr {os os' : OperatingSystem}
    (hp : os'.processes = os.processes) (hn : os'.next_pid = os.next_pid)
    (h : SessionInv os) : SessionInv os' := by
  unfold SessionInv at h ⊢
  rw [hp, hn]
  exact h

theorem inv_init (quantum : Int) : SessionInv (OperatingSystem.init quantum) := by
  refine ⟨?_, ?_, ?_⟩ <;> simp [OperatingSystem.init]

theorem procInv_init (pid : Nat) (name : String) (cpu_time memory priority now : Int) :
    procInv (Process.init pid name cpu_time memory priority now) := by
  unfold procInv Process.init
  refine ⟨le_max_left 1 cpu_time,
    le_trans zero_le_one (le_max_left 1 cpu_time),
    le_refl _, by simp, by simp, fun _ => le_max_left 1 cpu_time⟩

theorem inv_create {os : OperatingSystem} (h : SessionInv os)
    (name : String) (cpu_time memory priority : Int) :
    SessionInv (create_process os name cpu_time memory priority).2 := by
  obtain ⟨hall, hnd, hlt⟩ := h
  unfold create_process
  dsimp only
  refine ⟨?_, ?_, ?_⟩
  · intro p hp
    rcases List.mem_append.1 hp with h1 | h1
    · exact hall p h1
    · rw [List.mem_singleton.1 h1]
      exact procInv_init os.next_pid name cpu_time memory priority os.clock
  · rw [List.map_append]
    rw [List.nodup_append]
    refine ⟨hnd, by simp, ?_⟩
    intro a ha hb
    simp only [List.map_cons, List.map_nil, List.mem_singleton] at hb
    rw [List.mem_map] at ha
    obtain ⟨q, hq, rfl⟩ := ha
    rw [Process.init] at hb
    exact absurd hb (Nat.ne_of_lt (hlt q hq))
  · intro p hp
    rcases List.mem_append.1 hp with h1 | h1
    · exact Nat.lt_succ_of_lt (hlt p h1)
    · rw [List.mem_singleton.1 h1]
      exact Nat.lt_succ_self os.next_pid

theorem inv_setFirst_all {l : List Process} {pid : Nat} {newP : Process}
    (hall : ∀ q ∈ l, procInv q) (hinv : procInv newP) :
    ∀ q ∈ setFirst l pid newP, procInv q := by
  intro q hq
  rcases mem_setFirst hq with h1 | h1
  · exact hall q h1
  · rw [h1]
    exact hinv

theorem bound_setFirst {l : List Process} {pid n : Nat} {newP : Process}
    (hlt : ∀ q ∈ l, q.pid < n) (hn : newP.pid < n) :
    ∀ q ∈ setFirst l pid newP, q.pid < n := by
  intro q hq
  rcases mem_setFirst hq with h1 | h1
  · exact hlt q h1
  · rw [h1]
    exact hn

theorem finish_none_of_not_fin {p : Process} (hip : procInv p)
    (hs : p.state ≠ .finalizado) : p.finish_time.isSome = false := by
  cases hft : p.finish_time.isSome
  · rfl
  · exact absurd (hip.2.2.2.1.mpr hft) hs

theorem inv_block {os : OperatingSystem} (h : SessionInv os) (pid : Nat) :
    SessionInv (block_process os pid).2 := by
  obtain ⟨hall, hnd, hlt⟩ := h
  unfold block_process
  cases hf : get_process_by_pid os pid with
  | none => exact ⟨hall, hnd, hlt⟩
  | some p =>
    dsimp only
    by_cases hs : p.state = .finalizado
    · rw [if_pos hs]
      exact ⟨hall, hnd, hlt⟩
    · rw [if_neg hs]
      obtain ⟨hmem, hpid⟩ := get_process_spec hf
      have hip := hall p hmem
      have hnew : procInv { p with state := ProcessState.bloqueado } := by
        obtain ⟨h1, h2, h3, h4, h5, h6⟩ := hip
        refine ⟨h1, h2, h3, ?_, fun hcon => ProcessState.noConfusion hcon,
          fun _ => h6 hs⟩
        dsimp only
        rw [finish_none_of_not_fin ⟨h1, h2, h3, h4, h5, h6⟩ hs]
        simp
      refine ⟨inv_setFirst_all hall hnew, ?_, bound_setFirst hlt (hpid ▸ hlt p hmem)⟩
      rw [map_pid_setFirst pid (by simpa using hpid)]
      exact hnd

theorem inv_unblock {os : OperatingSystem} (h : SessionInv os) (pid : Nat) :
    SessionInv (unblock_process os pid).2 := by
  obtain ⟨hall, hnd, hlt⟩ := h
  unfold unblock_process
  cases hf : get_process_by_pid os pid with
  | none => exact ⟨hall, hnd, hlt⟩
  | some p =>
    dsimp only
    by_cases hs : p.state = .bloqueado
    · rw [if_pos hs]
      obtain ⟨hmem, hpid⟩ := get_process_spec hf
      have hip := hall p hmem
      have hnotfin : p.state ≠ .finalizado := by
        rw [hs]
        decide
      have hnew : procInv { p with state := ProcessState.pronto } := by
        obtain ⟨h1, h2, h3, h4, h5, h6⟩ := hip
        refine ⟨h1, h2, h3, ?_, fun hcon => ProcessState.noConfusion hcon,
          fun _ => h6 hnotfin⟩
        dsimp only
        rw [finish_none_of_not_fin ⟨h1, h2, h3, h4, h5, h6⟩ hnotfin]
        simp
      refine ⟨inv_setFirst_all hall hnew, ?_, bound_setFirst hlt (hpid ▸ hlt p hmem)⟩
      rw [map_pid_setFirst pid (by simpa using hpid)]
      exact hnd
    · rw [if_neg hs]
      exact ⟨hall, hnd, hlt⟩

theorem inv_kill {os : OperatingSystem} (h : SessionInv os) (pid : Nat) :
    SessionInv (kill_process os pid).2 := by
  obtain ⟨hall, hnd, hlt⟩ := h
  unfold kill_process
  cases hf : get_process_by_pid os pid with
  | none => exact ⟨hall, hnd, hlt⟩
  | some p =>
    dsimp only
    obtain ⟨hmem, hpid⟩ := get_process_spec hf
    have hip := hall p hmem
    have hnew :
        procInv { p with state := ProcessState.finalizado, cpu_remaining := 0, finish_time := some os.clock } := by
      obtain ⟨h1, h2, h3, h4, h5, h6⟩ := hip
      exact ⟨h1, le_refl 0, le_trans zero_le_one h1, by simp, fun _ => rfl,
        fun hcon => absurd rfl hcon⟩
    refine ⟨inv_setFirst_all hall hnew, ?_, bound_setFirst hlt (hpid ▸ hlt p hmem)⟩
    rw [map_pid_setFirst pid (by simpa using hpid)]
    exact hnd

theorem selectByAlg_some_spec {alg : String} {os os₁ : OperatingSystem} {p : Process}
    (h : selectByAlg alg os = (some p, os₁)) :
    p ∈ os.processes ∧ p.state = .pronto ∧
    os₁.processes = os.processes ∧ os₁.next_pid = os.next_pid := by
  unfold selectByAlg at h
  by_cases h1 : alg = "fifo"
  · rw [if_pos h1] at h
    simp only [Prod.mk.injEq] at h
    obtain ⟨hsel, rfl⟩ := h
    have hm : p ∈ get_ready_processes os :=
      List.mem_of_mem_head? (Option.mem_def.mpr hsel)
    obtain ⟨hm1, hm2⟩ := mem_ready.1 hm
    exact ⟨hm1, hm2, rfl, rfl⟩
  · rw [if_neg h1] at h
    by_cases h2 : alg = "sjf"
    · rw [if_pos h2] at h
      simp only [Prod.mk.injEq] at h
      obtain ⟨hsel, rfl⟩ := h
      obtain ⟨hm1, hm2⟩ := mem_ready.1 (minByFirst_mem hsel)
      exact ⟨hm1, hm2, rfl, rfl⟩
    · rw [if_neg h2] at h
      by_cases h3 : alg = "prio"
      · rw [if_pos h3] at h
        simp only [Prod.mk.injEq] at h
        obtain ⟨hsel, rfl⟩ := h
        obtain ⟨hm1, hm2⟩ := mem_ready.1 (minByFirst_mem hsel)
        exact ⟨hm1, hm2, rfl, rfl⟩
      · rw [if_neg h3] at h
        unfold rrSelectAndRequeue at h
        cases hsel : select_next_process_rr os with
        | mk c q =>
          rw [hsel] at h
          cases c with
          | none =>
            dsimp only at h
            exact absurd (congrArg Prod.fst h) (by simp)
          | some r =>
            dsimp only at h
            simp only [Prod.mk.injEq, Option.some.injEq] at h
            obtain ⟨rfl, rfl⟩ := h
            obtain ⟨hm1, hm2, -⟩ := selectRRAux_some_spec hsel
            exact ⟨hm1, hm2, rfl, rfl⟩

theorem selectByAlg_none_spec {alg : String} {os os₁ : OperatingSystem}
    (h : selectByAlg alg os = (none, os₁)) :
    os₁.processes = os.processes ∧ os₁.next_pid = os.next_pid := by
  unfold selectByAlg at h
  by_cases h1 : alg = "fifo"
  · rw [if_pos h1] at h
    simp only [Prod.mk.injEq] at h
    rw [← h.2]
    exact ⟨rfl, rfl⟩
  · rw [if_neg h1] at h
    by_cases h2 : alg = "sjf"
    · rw [if_pos h2] at h
      simp only [Prod.mk.injEq] at h
      rw [← h.2]
      exact ⟨rfl, rfl⟩
    · rw [if_neg h2] at h
      by_cases h3 : alg = "prio"
      · rw [if_pos h3] at h
        simp only [Prod.mk.injEq] at h
        rw [← h.2]
        exact ⟨rfl, rfl⟩
      · rw [if_neg h3] at h
        unfold rrSelectAndRequeue at h
        cases hsel : select_next_process_rr os with
        | mk c q =>
          rw [hsel] at h
          cases c with
          | some r =>
            dsimp only at h
            exact absurd (congrArg Prod.fst h) (by simp)
          | none =>
            dsimp only at h
            simp only [Prod.mk.injEq] at h
            rw [← h.2]
            exact ⟨rfl, rfl⟩


theorem inv_executeOneCycle {os : OperatingSystem} {p : Process}
    (h : SessionInv os) (hmem : p ∈ os.processes) (hs : p.state = .pronto) :
    SessionInv (executeOneCycle os p) := by
  obtain ⟨hall, hnd, hlt⟩ := h
  have hip := hall p hmem
  obtain ⟨h1, h2, h3, h4, h5, h6⟩ := hip
  have hnotfin : p.state ≠ .finalizado := by
    rw [hs]
    exact fun hcon => ProcessState.noConfusion hcon
  have hrem : 1 ≤ p.cpu_remaining := h6 hnotfin
  have hfin : p.finish_time.isSome = false :=
    finish_none_of_not_fin ⟨h1, h2, h3, h4, h5, h6⟩ hnotfin
  unfold executeOneCycle
  dsimp only
  by_cases hle : p.cpu_remaining - 1 ≤ 0
  · rw [if_pos hle]
    have hnew :
        procInv { p with state := ProcessState.finalizado, cpu_remaining := p.cpu_remaining - 1, finish_time := some os.clock } := by
      unfold procInv
      dsimp only
      exact ⟨h1, by omega, by omega, by simp, fun _ => by omega,
        fun hcon => absurd rfl hcon⟩
    refine ⟨inv_setFirst_all hall hnew, ?_, bound_setFirst hlt (hlt p hmem)⟩
    dsimp only
    rw [map_pid_setFirst p.pid]
    · exact hnd
    · rfl
  · rw [if_neg hle]
    have hnew :
        procInv { p with state := ProcessState.pronto, cpu_remaining := p.cpu_remaining - 1 } := by
      unfold procInv
      dsimp only
      refine ⟨h1, by omega, by omega, ?_, fun hcon => ProcessState.noConfusion hcon,
        fun _ => by omega⟩
      rw [hfin]
      simp
    refine ⟨inv_setFirst_all hall hnew, ?_, bound_setFirst hlt (hlt p hmem)⟩
    dsimp only
    rw [map_pid_setFirst p.pid]
    · exact hnd
    · rfl

theorem inv_runAux (alg : String) (fuel : Nat) :
    ∀ (os : OperatingSystem) (cycle : Nat) (trace : List CycleEvent),
      SessionInv os → SessionInv (runAux alg fuel os cycle trace).os := by
  induction fuel with
  | zero =>
    intro os c tr h
    exact h
  | succ n ih =>
    intro os c tr h
    rw [runAux]
    dsimp only
    by_cases hready : (get_ready_processes os).isEmpty
    · rw [if_pos hready]
      by_cases hfin : (os.processes.filter (fun p => !(p.state == .finalizado))).isEmpty
      · rw [if_pos hfin]
        exact h
      · rw [if_neg hfin]
        exact h
    · rw [if_neg hready]
      by_cases hvalid : alg = "fifo" ∨ alg = "sjf" ∨ alg = "prio" ∨ alg = "rr"
      · rw [if_pos hvalid]
        cases hsel : selectByAlg alg os with
        | mk copt os₁ =>
          cases copt with
          | none =>
            obtain ⟨hp, hn⟩ := selectByAlg_none_spec hsel
            exact sessionInv_congr hp hn h
          | some p =>
            obtain ⟨hm, hst, hproc, hnext⟩ := selectByAlg_some_spec hsel
            have h₁ : SessionInv os₁ := sessionInv_congr hproc hnext h
            exact ih (executeOneCycle os₁ p) (c + 1)
                (tr ++ [⟨c + 1, p.pid, p.name, p.cpu_remaining - 1⟩])
                (inv_executeOneCycle h₁ (hproc ▸ hm) hst)
      · rw [if_neg hvalid]
        exact h

theorem reachable_inv {os : OperatingSystem} (h : Reachable os) : SessionInv os := by
  induction h with
  | init quantum => exact inv_init quantum
  | create os name cpu_time memory priority hr ih =>
    exact inv_create ih name cpu_time memory priority
  | block os pid hr ih => exact inv_block ih pid
  | unblock os pid hr ih => exact inv_unblock ih pid
  | kill os pid hr ih => exact inv_kill ih pid
  | run os algorithm fuel hr ih => exact inv_runAux algorithm.toLower fuel os 0 [] ih

/-! ### A Finished process never changes state under block, unblock or run -/

theorem state_of_congr {os os' : OperatingSystem} (pid : Nat)
    (hp : os'.processes = os.processes) : state_of os' pid = state_of os pid := by
  unfold state_of get_process_by_pid
  rw [hp]

theorem state_of_block_finished (os : OperatingSystem) (pid pid' : Nat)
    (h : state_of os pid = some .finalizado) :
    state_of (block_process os pid').2 pid = some .finalizado := by
  unfold block_process
  cases hf : get_process_by_pid os pid' with
  | none => exact h
  | some p =>
    dsimp only
    by_cases hs : p.state = .finalizado
    · rw [if_pos hs]
      exact h
    · rw [if_neg hs]
      by_cases hpp : pid = pid'
      · subst hpp
        rw [state_of, hf] at h
        simp only [Option.map_some', Option.some.injEq] at h
        exact absurd h hs
      · rw [state_of, get_process_by_pid] at h ⊢
        dsimp only
        rw [find?_setFirst_ne hpp (by simpa using (get_process_spec hf).2)]
        exact h

theorem state_of_unblock_finished (os : OperatingSystem) (pid pid' : Nat)
    (h : state_of os pid = some .finalizado) :
    state_of (unblock_process os pid').2 pid = some .finalizado := by
  unfold unblock_process
  cases hf : get_process_by_pid os pid' with
  | none => exact h
  | some p =>
    dsimp only
    by_cases hs : p.state = .bloqueado
    · rw [if_pos hs]
      by_cases hpp : pid = pid'
      · subst hpp
        rw [state_of, hf] at h
        simp only [Option.map_some', Option.some.injEq] at h
        rw [hs] at h
        exact absurd h (by decide)
      · rw [state_of, get_process_by_pid] at h ⊢
        dsimp only
        rw [find?_setFirst_ne hpp (by simpa using (get_process_spec hf).2)]
        exact h
    · rw [if_neg hs]
      exact h

theorem state_of_executeOneCycle_ne {os : OperatingSystem} {p : Process} {pid : Nat}
    (hne : pid ≠ p.pid) :
    state_of (executeOneCycle os p) pid = state_of os pid := by
  unfold executeOneCycle state_of get_process_by_pid
  dsimp only
  by_cases hle : p.cpu_remaining - 1 ≤ 0
  · rw [if_pos hle]
    dsimp only
    rw [find?_setFirst_ne hne (by simp)]
  · rw [if_neg hle]
    dsimp only
    rw [find?_setFirst_ne hne (by simp)]

theorem state_of_runAux_finished (alg : String) (fuel : Nat) :
    ∀ (os : OperatingSystem) (cycle : Nat) (trace : List CycleEvent) (pid : Nat),
      SessionInv os → state_of os pid = some .finalizado →
      state_of (runAux alg fuel os cycle trace).os pid = some .finalizado := by
  induction fuel with
  | zero =>
    intro os c tr pid hinv h
    exact h
  | succ n ih =>
    intro os c tr pid hinv h
    rw [runAux]
    dsimp only
    by_cases hready : (get_ready_processes os).isEmpty
    · rw [if_pos hready]
      by_cases hfin : (os.processes.filter (fun p => !(p.state == .finalizado))).isEmpty
      · rw [if_pos hfin]
        exact h
      · rw [if_neg hfin]
        exact h
    · rw [if_neg hready]
      by_cases hvalid : alg = "fifo" ∨ alg = "sjf" ∨ alg = "prio" ∨ alg = "rr"
      · rw [if_pos hvalid]
        cases hsel : selectByAlg alg os with
        | mk copt os₁ =>
          cases copt with
          | none =>
            obtain ⟨hp, hn⟩ := selectByAlg_none_spec hsel
            dsimp only
            rw [state_of_congr pid hp]
            exact h
          | some p =>
            obtain ⟨hm, hst, hproc, hnext⟩ := selectByAlg_some_spec hsel
            have hinv₁ : SessionInv os₁ := sessionInv_congr hproc hnext hinv
            have hne : pid ≠ p.pid := by
              intro hcon
              subst hcon
              obtain ⟨hall, hnd, hlt⟩ := hinv
              have hfind := find?_eq_of_mem_nodup hm hnd
              rw [state_of, get_process_by_pid, hfind] at h
              simp only [Option.map_some', Option.some.injEq] at h
              exact ProcessState.noConfusion (hst ▸ h)
            have h₁ : state_of os₁ pid = some .finalizado := by
              rw [state_of_congr pid hproc]
              exact h
            have h₂ : state_of (executeOneCycle os₁ p) pid = some .finalizado := by
              rw [state_of_executeOneCycle_ne hne]
              exact h₁
            exact ih (executeOneCycle os₁ p) (c + 1)
              (tr ++ [⟨c + 1, p.pid, p.name, p.cpu_remaining - 1⟩]) pid
              (inv_executeOneCycle hinv₁ (hproc ▸ hm) hst) h₂
      · rw [if_neg hvalid]
        exact h

/-! ### The stored quantum is never read by any operation -/

theorem processes_setQuantum (os : OperatingSystem) (q : Int) :
    ({ os with quantum := q } : OperatingSystem).processes = os.processes := rfl

theorem ready_setQuantum (os : OperatingSystem) (q : Int) :
    get_ready_processes { os with quantum := q } = get_ready_processes os := rfl

theorem rrSelectAndRequeue_quantum (os : OperatingSystem) (q : Int) :
    rrSelectAndRequeue { os with quantum := q } =
      ((rrSelectAndRequeue os).1, { (rrSelectAndRequeue os).2 with quantum := q }) := by
  unfold rrSelectAndRequeue
  rw [show select_next_process_rr { os with quantum := q } = select_next_process_rr os from rfl]
  cases hsel : select_next_process_rr os with
  | mk copt qq =>
    cases copt with
    | none => rfl
    | some p => rfl

theorem selectByAlg_quantum (alg : String) (os : OperatingSystem) (q : Int) :
    selectByAlg alg { os with quantum := q } =
      ((selectByAlg alg os).1, { (selectByAlg alg os).2 with quantum := q }) := by
  unfold selectByAlg
  by_cases h1 : alg = "fifo"
  · rw [if_pos h1, if_pos h1]
    rfl
  · rw [if_neg h1, if_neg h1]
    by_cases h2 : alg = "sjf"
    · rw [if_pos h2, if_pos h2]
      rfl
    · rw [if_neg h2, if_neg h2]
      by_cases h3 : alg = "prio"
      · rw [if_pos h3, if_pos h3]
        rfl
      · rw [if_neg h3, if_neg h3]
        exact rrSelectAndRequeue_quantum os q

theorem executeOneCycle_quantum (os : OperatingSystem) (q : Int) (p : Process) :
    executeOneCycle { os with quantum := q } p =
      { executeOneCycle os p with quantum := q } := by
  unfold executeOneCycle
  dsimp only
  by_cases hle : p.cpu_remaining - 1 ≤ 0
  · rw [if_pos hle, if_pos hle]
  · rw [if_neg hle, if_neg hle]

theorem runAux_quantum (alg : String) (fuel : Nat) :
    ∀ (os : OperatingSystem) (q : Int) (cycle : Nat) (trace : List CycleEvent),
      runAux alg fuel { os with quantum := q } cycle trace =
        { runAux alg fuel os cycle trace with
            os := { (runAux alg fuel os cycle trace).os with quantum := q } } := by
  induction fuel with
  | zero =>
    intro os q c tr
    rfl
  | succ n ih =>
    intro os q c tr
    rw [runAux, runAux]
    dsimp only
    rw [ready_setQuantum, processes_setQuantum]
    by_cases hready : (get_ready_processes os).isEmpty
    · rw [if_pos hready, if_pos hready]
      by_cases hfin : (os.processes.filter (fun p => !(p.state == .finalizado))).isEmpty
      · rw [if_pos hfin, if_pos hfin]
      · rw [if_neg hfin, if_neg hfin]
    · rw [if_neg hready, if_neg hready]
      by_cases hvalid : alg = "fifo" ∨ alg = "sjf" ∨ alg = "prio" ∨ alg = "rr"
      · rw [if_pos hvalid, if_pos hvalid]
        rw [selectByAlg_quantum]
        cases hsel : selectByAlg alg os with
        | mk copt os₁ =>
          cases copt with
          | none => rfl
          | some p =>
            dsimp only
            rw [executeOneCycle_quantum]
            exact ih (executeOneCycle os₁ p) q (c + 1)
              (tr ++ [⟨c + 1, p.pid, p.name, p.cpu_remaining - 1⟩])
      · rw [if_neg hvalid, if_neg hvalid]

theorem run_simulation_quantum (algorithm : String) (fuel : Nat)
    (os : OperatingSystem) (q : Int) :
    run_simulation algorithm fuel { os with quantum := q } =
      { run_simulation algorithm fuel os with
          os := { (run_simulation algorithm fuel os).os with quantum := q } } := by
  unfold run_simulation
  exact runAux_quantum algorithm.toLower fuel os q 0 []

theorem create_quantum (os : OperatingSystem) (q : Int) (name : String)
    (cpu_time memory priority : Int) :
    create_process { os with quantum := q } name cpu_time memory priority =
      ((create_process os name cpu_time memory priority).1,
       { (create_process os name cpu_time memory priority).2 with quantum := q }) := rfl

theorem block_quantum (os : OperatingSystem) (q : Int) (pid : Nat) :
    block_process { os with quantum := q } pid =
      ((block_process os pid).1, { (block_process os pid).2 with quantum := q }) := by
  unfold block_process
  rw [show get_process_by_pid { os with quantum := q } pid = get_process_by_pid os pid from rfl]
  cases hf : get_process_by_pid os pid with
  | none => rfl
  | some p =>
    dsimp only
    by_cases hs : p.state = .finalizado
    · rw [if_pos hs, if_pos hs]
    · rw [if_neg hs, if_neg hs]

theorem unblock_quantum (os : OperatingSystem) (q : Int) (pid : Nat) :
    unblock_process { os with quantum := q } pid =
      ((unblock_process os pid).1, { (unblock_process os pid).2 with quantum := q }) := by
  unfold unblock_process
  rw [show get_process_by_pid { os with quantum := q } pid = get_process_by_pid os pid from rfl]
  cases hf : get_process_by_pid os pid with
  | none => rfl
  | some p =>
    dsimp only
    by_cases hs : p.state = .bloqueado
    · rw [if_pos hs, if_pos hs]
    · rw [if_neg hs, if_neg hs]

theorem kill_quantum (os : OperatingSystem) (q : Int) (pid : Nat) :
    kill_process { os with quantum := q } pid =
      ((kill_process os pid).1, { (kill_process os pid).2 with quantum := q }) := by
  unfold kill_process
  rw [show get_process_by_pid { os with quantum := q } pid = get_process_by_pid os pid from rfl]
  cases hf : get_process_by_pid os pid with
  | none => rfl
  | some p => rfl

theorem execOp_quantum (os : OperatingSystem) (q : Int) (op : Op) :
    execOp { os with quantum := q } op =
      ({ (execOp os op).1 with quantum := q }, (execOp os op).2) := by
  cases op with
  | create name cpu_time memory priority =>
    unfold execOp
    dsimp only
    rw [create_quantum]
  | block pid =>
    unfold execOp
    dsimp only
    rw [block_quantum]
  | unblock pid =>
    unfold execOp
    dsimp only
    rw [unblock_quantum]
  | kill pid =>
    unfold execOp
    dsimp only
    rw [kill_quantum]
  | run algorithm fuel =>
    unfold execOp
    dsimp only
    rw [run_simulation_quantum]

theorem execOps_quantum (ops : List Op) :
    ∀ (os : OperatingSystem) (q : Int),
      execOps { os with quantum := q } ops =
        ({ (execOps os ops).1 with quantum := q }, (execOps os ops).2) := by
  induction ops with
  | nil =>
    intro os q
    rfl
  | cons op ops ih =>
    intro os q
    rw [execOps, execOps]
    dsimp only
    rw [execOp_quantum]
    cases hop : execOp os op with
    | mk os₁ out =>
      dsimp only
      rw [ih os₁ q]

/-! ### Lowercasing of the policy name is idempotent -/

theorem char_toLower_fixed (c : Char) (h : ¬(c.toNat ≥ 65 ∧ c.toNat ≤ 90)) :
    c.toLower = c := by
  unfold Char.toLower
  exact if_neg h

theorem char_toLower_toNat_of_upper (c : Char) (h : c.toNat ≥ 65 ∧ c.toNat ≤ 90) :
    c.toLower.toNat = c.toNat + 32 := by
  unfold Char.toLower
  rw [if_pos h]
  have hval : (c.toNat + 32).isValidChar := Or.inl (by omega)
  unfold Char.ofNat
  rw [dif_pos hval]
  simp [Char.ofNatAux, Char.toNat, UInt32.toNat]

theorem char_toLower_idem (c : Char) : c.toLower.toLower = c.toLower := by
  by_cases h : c.toNat ≥ 65 ∧ c.toNat ≤ 90
  · apply char_toLower_fixed
    rw [char_toLower_toNat_of_upper c h]
    omega
  · rw [char_toLower_fixed c h, char_toLower_fixed c h]

theorem string_toLower_idem (s : String) : s.toLower.toLower = s.toLower := by
  unfold String.toLower
  rw [String.map_eq, String.map_eq]
  refine congrArg String.mk ?_
  show (s.data.map Char.toLower).map Char.toLower = s.data.map Char.toLower
  rw [List.map_map]
  exact List.map_congr_left (fun c hc => char_toLower_idem c)

/-! ### Evaluation bridges for the lowercased policy name -/

theorem string_toLower_data (s : String) : s.toLower = ⟨s.data.map Char.toLower⟩ := by
  rw [String.toLower, String.map_eq]

theorem run_simulation_eq (algorithm : String) (fuel : Nat) (os : OperatingSystem) :
    run_simulation algorithm fuel os =
      runAux ⟨algorithm.data.map Char.toLower⟩ fuel os 0 [] := by
  unfold run_simulation
  rw [string_toLower_data]

theorem osStarve_eq : osStarve = osStarveExec := by
  unfold osStarve osStarveExec
  rw [run_simulation_eq]
  rw [show (⟨"rr".data.map Char.toLower⟩ : String) = "rr" from by decide]

/-! ### The claims -/

/-- Claim C1 (counterexample).  The claim states that `kill` on an
already-Finished process reports a distinct already-finished notice and
alters no field.  In fact `kill_process` has no finished-check: killing the
already-killed P1 of `osKilled` again yields the same generic `killed`
outcome as any kill, and overwrites the completion timestamp (`some 1`
becomes `some 2`). -/
theorem kill_already_finished_counterexample :
    state_of osKilled 1 = some .finalizado ∧
    (get_process_by_pid osKilled 1).map Process.finish_time = some (some 1) ∧
    (kill_process osKilled 1).1 = .killed ∧
    (get_process_by_pid (kill_process osKilled 1).2 1).map Process.finish_time =
      some (some 2) := by
  decide

/-- Claim C1 (amended).  In every reachable session, invoking `kill` on an
already-Finished process reports the same generic `killed` notice as any
successful kill (there is no distinct already-finished notice), keeps the
state Finished and the remaining demand 0, but overwrites the completion
timestamp with the current clock: the updated table entry is exactly the
old process with a fresh `finish_time`. -/
theorem kill_already_finished_refinishes (os : OperatingSystem) (pid : Nat) (p : Process)
    (hr : Reachable os)
    (hf : get_process_by_pid os pid = some p) (hfin : p.state = .finalizado) :
    (kill_process os pid).1 = .killed ∧
    get_process_by_pid (kill_process os pid).2 pid =
      some { p with finish_time := some os.clock } := by
  obtain ⟨hmem, hpid⟩ := get_process_spec hf
  have hrem0 : p.cpu_remaining = 0 := ((reachable_inv hr).1 p hmem).2.2.2.2.1 hfin
  have hf' : os.processes.find? (fun q => q.pid == pid) = some p := hf
  unfold kill_process
  rw [show get_process_by_pid os pid = some p from hf]
  dsimp only
  refine ⟨rfl, ?_⟩
  unfold get_process_by_pid
  dsimp only
  rw [find?_setFirst_self hf' (by simpa using hpid)]
  rw [← hfin, ← hrem0]

/-- Witness for the amended C1 at the concrete killed session. -/
theorem kill_already_finished_refinishes_witness :
    (kill_process osKilled 1).1 = .killed ∧
    get_process_by_pid (kill_process osKilled 1).2 1 =
      some { pKilled with finish_time := some osKilled.clock } :=
  kill_already_finished_refinishes osKilled 1 pKilled
    (Reachable.kill _ 1 (Reachable.create _ "P1" 1 100 3 (Reachable.init 2)))
    (by decide) (by decide)

/-- Claim C2 (counterexample).  The claim states that a `none` selection
with a non-empty ready set halts with a fatal engine error rather than a
normal-completion outcome.  In `osStarve` (reachable by create, create,
block, run(rr), unblock) the ready set is non-empty, Round-Robin selection
returns `none`, and `run(rr)` silently `break`s into the normal completion
epilogue (the concluding cycle-count message and the metrics are printed:
`metricsShown = true`), with zero cycles — there is no fatal outcome at
all. -/
theorem selection_none_counterexample :
    get_ready_processes osStarve ≠ [] ∧
    (select_next_process_rr osStarve).1 = none ∧
    (run_simulation "rr" 10 osStarve).reason = .selectionNone ∧
    (run_simulation "rr" 10 osStarve).metricsShown = true ∧
    (run_simulation "rr" 10 osStarve).cycles = 0 := by
  rw [run_simulation_eq, osStarve_eq]
  exact ⟨by decide, by decide, by decide, by decide, by decide⟩

/-- Claim C2 (amended).  When the per-cycle Round-Robin selection returns
`none` while the ready set computed in the same cycle is non-empty, the
engine does not assert or raise any fatal error: it breaks out of the loop
and halts through the same normal-completion epilogue as a successful run
(`metricsShown = true`), leaving every process untouched and only the
rotation queue drained by the failed search. -/
theorem selection_none_normal_completion (os : OperatingSystem) (fuel cycle : Nat)
    (trace : List CycleEvent)
    (hready : get_ready_processes os ≠ [])
    (hsel : (select_next_process_rr os).1 = none) :
    runAux "rr" (fuel + 1) os cycle trace =
      ⟨{ os with rr_queue := (select_next_process_rr os).2 }, cycle, trace,
        .selectionNone, true⟩ := by
  rw [runAux]
  dsimp only
  rw [if_neg (by simpa [List.isEmpty_iff] using hready)]
  rw [if_pos (Or.inr (Or.inr (Or.inr rfl)))]
  have halg : selectByAlg "rr" os = rrSelectAndRequeue os := by
    unfold selectByAlg
    rw [if_neg (by decide), if_neg (by decide), if_neg (by decide)]
  rw [halg]
  unfold rrSelectAndRequeue
  cases hp : select_next_process_rr os with
  | mk copt qq =>
    rw [hp] at hsel
    dsimp only at hsel
    subst hsel
    rfl

/-- Witness for the amended C2 at the starvation state. -/
theorem selection_none_normal_completion_witness :
    runAux "rr" (9 + 1) osStarve 0 [] =
      ⟨{ osStarve with rr_queue := (select_next_process_rr osStarve).2 }, 0, [],
        .selectionNone, true⟩ :=
  selection_none_normal_completion osStarve 9 0 []
    (by rw [osStarve_eq]; decide) (by rw [osStarve_eq]; decide)

/-- Claim C3 (counterexample).  The claim states that every run with an
unknown policy name fails with a configuration error before any cycle, for
every table state.  But the invalid-name check sits inside the loop after
the empty-ready check: on an empty session, `run("xyz")` halts through the
all-processes-finished outcome and never reports a configuration error. -/
theorem invalid_policy_counterexample :
    (run_simulation "xyz" 1 (OperatingSystem.init 2)).reason = .allFinished ∧
    ¬(run_simulation "xyz" 1 (OperatingSystem.init 2)).reason = .invalidAlgorithm := by
  rw [run_simulation_eq]
  exact ⟨by decide, by decide⟩

/-- Claim C3 (amended).  For every policy name whose lowercased form is
outside {fifo, sjf, prio, rr}, `run` performs zero cycles, emits no trace
event and mutates nothing; it reports the configuration error (and skips
the metrics epilogue) exactly when the ready set is non-empty, while with
an empty ready set it halts through the normal empty-ready outcome
(all-finished or deadlock) without any configuration error. -/
theorem invalid_policy_no_mutation (algorithm : String) (fuel : Nat) (os : OperatingSystem)
    (hfuel : 1 ≤ fuel)
    (hbad : ¬(algorithm.toLower = "fifo" ∨ algorithm.toLower = "sjf" ∨
              algorithm.toLower = "prio" ∨ algorithm.toLower = "rr")) :
    (run_simulation algorithm fuel os).os = os ∧
    (run_simulation algorithm fuel os).cycles = 0 ∧
    (run_simulation algorithm fuel os).trace = [] ∧
    (get_ready_processes os ≠ [] →
      (run_simulation algorithm fuel os).reason = .invalidAlgorithm ∧
      (run_simulation algorithm fuel os).metricsShown = false) ∧
    (get_ready_processes os = [] →
      (run_simulation algorithm fuel os).reason = .allFinished ∨
      (run_simulation algorithm fuel os).reason = .deadlock) := by
  obtain ⟨n, rfl⟩ : ∃ n, fuel = n + 1 := ⟨fuel - 1, by omega⟩
  unfold run_simulation
  rw [runAux]
  dsimp only
  by_cases hready : (get_ready_processes os).isEmpty
  · rw [if_pos hready]
    have hr : get_ready_processes os = [] := by simpa [List.isEmpty_iff] using hready
    by_cases hfin : (os.processes.filter (fun p => !(p.state == .finalizado))).isEmpty
    · rw [if_pos hfin]
      exact ⟨rfl, rfl, rfl, fun hcon => absurd hr hcon, fun _ => Or.inl rfl⟩
    · rw [if_neg hfin]
      exact ⟨rfl, rfl, rfl, fun hcon => absurd hr hcon, fun _ => Or.inr rfl⟩
  · rw [if_neg hready]
    rw [if_neg hbad]
    have hr : get_ready_processes os ≠ [] := by simpa [List.isEmpty_iff] using hready
    exact ⟨rfl, rfl, rfl, fun _ => ⟨rfl, rfl⟩, fun hcon => absurd hcon hr⟩

/-- Witness for the amended C3: `run("xyz")` on a session with one ready
process reports the configuration error with zero cycles and no mutation. -/
theorem invalid_policy_witness :
    (run_simulation "xyz" 1 osOneReady).os = osOneReady ∧
    (run_simulation "xyz" 1 osOneReady).cycles = 0 ∧
    (run_simulation "xyz" 1 osOneReady).reason = .invalidAlgorithm := by
  have h := invalid_policy_no_mutation "xyz" 1 osOneReady (le_refl 1)
    (by rw [string_toLower_data]; decide)
  exact ⟨h.1, h.2.1, (h.2.2.2.1 (by decide)).1⟩

/-- Claim C4 (counterexample).  The claim states both derived queries are
absent exactly when the completion timestamp is unset.  But the Python
getters use truthiness: on a process whose completion timestamp equals its
arrival time (turnaround `0`), the timestamp is set and turnaround is even
present, yet waiting is absent. -/
theorem derived_queries_counterexample :
    pSameInstant.finish_time.isSome = true ∧
    pSameInstant.turnaround_time = some 0 ∧
    pSameInstant.waiting_time = none := by
  decide

/-- Claim C4 (amended).  `turnaround` is present iff the completion
timestamp is set *and nonzero*, and then equals completion minus creation;
`waiting` is present iff turnaround is present *and nonzero*, and then
equals turnaround minus total demand; when the completion timestamp is
unset both queries are absent (the truthiness checks additionally hide the
zero-valued cases). -/
theorem derived_queries_truthiness (p : Process) :
    (p.turnaround_time.isSome = true ↔ ∃ f, p.finish_time = some f ∧ f ≠ 0) ∧
    (p.waiting_time.isSome = true ↔ ∃ t, p.turnaround_time = some t ∧ t ≠ 0) ∧
    (∀ f, p.finish_time = some f → f ≠ 0 →
      p.turnaround_time = some (f - p.arrival_time)) ∧
    (∀ t, p.turnaround_time = some t → t ≠ 0 →
      p.waiting_time = some (t - p.cpu_time)) ∧
    (p.finish_time = none → p.turnaround_time = none ∧ p.waiting_time = none) := by
  refine ⟨?_, ?_, ?_, ?_, ?_⟩
  · unfold Process.turnaround_time
    cases hf : p.finish_time with
    | none => simp
    | some f =>
      by_cases h0 : f = 0 <;> simp [h0]
  · unfold Process.waiting_time
    cases ht : p.turnaround_time with
    | none => simp
    | some t =>
      by_cases h0 : t = 0 <;> simp [h0]
  · intro f hf h0
    unfold Process.turnaround_time
    rw [hf]
    simp [h0]
  · intro t ht h0
    unfold Process.waiting_time
    rw [ht]
    simp [h0]
  · intro hf
    have ht : p.turnaround_time = none := by
      unfold Process.turnaround_time
      rw [hf]
    refine ⟨ht, ?_⟩
    unfold Process.waiting_time
    rw [ht]

/-- Witness for the amended C4 on a normally finished process
(arrival 2, completion 9, demand 5): turnaround 7, waiting 2. -/
theorem derived_queries_witness :
    pNormalFinish.turnaround_time = some 7 ∧ pNormalFinish.waiting_time = some 2 := by
  have h := derived_queries_truthiness pNormalFinish
  have h1 : pNormalFinish.turnaround_time = some (9 - 2) :=
    h.2.2.1 9 rfl (by decide)
  have h2 : pNormalFinish.waiting_time = some (7 - 5) :=
    h.2.2.2.1 7 (by rw [h1]; decide) (by decide)
  constructor
  · rw [h1]
    decide
  · rw [h2]
    decide

/-- Claim C5 (confirmed).  In every reachable session state — i.e. after
every sequence of create/block/unblock/kill/run operations, and (because
the `run` step is admitted at every fuel) after every individual cycle of a
run — each process satisfies `0 ≤ remaining ≤ total` and `total ≥ 1`; and
construction clamps a caller-supplied total demand below 1 up to 1. -/
theorem demand_bounds_invariant (os : OperatingSystem) (hr : Reachable os) :
    (∀ p ∈ os.processes,
      0 ≤ p.cpu_remaining ∧ p.cpu_remaining ≤ p.cpu_time ∧ 1 ≤ p.cpu_time) ∧
    (∀ (pid : Nat) (name : String) (cpu_time memory priority now : Int),
      cpu_time < 1 → (Process.init pid name cpu_time memory priority now).cpu_time = 1) := by
  refine ⟨?_, ?_⟩
  · intro p hp
    obtain ⟨h1, h2, h3, -, -, -⟩ := (reachable_inv hr).1 p hp
    exact ⟨h2, h3, h1⟩
  · intro pid name cpu_time memory priority now hc
    unfold Process.init
    dsimp only
    exact max_eq_left (le_of_lt hc)

/-- Witness for C5 at a reachable session with one process, plus the
clamping of a negative requested demand. -/
theorem demand_bounds_invariant_witness :
    (0 ≤ pOneReady.cpu_remaining ∧ pOneReady.cpu_remaining ≤ pOneReady.cpu_time ∧
      1 ≤ pOneReady.cpu_time) ∧
    (Process.init 7 "X" (-4) 0 0 0).cpu_time = 1 := by
  have h := demand_bounds_invariant osOneReady
    (Reachable.create _ "P1" 2 100 3 (Reachable.init 2))
  exact ⟨h.1 pOneReady (by decide), h.2 7 "X" (-4) 0 0 0 (by decide)⟩

/-- Claim C6 (confirmed).  In every reachable session state the completion
timestamp is set exactly on Finished processes; and a Finished process is
left in state Finished by every `block`, `unblock` and `run` invocation
(on any pid and any policy name). -/
theorem finished_is_terminal (os : OperatingSystem) (hr : Reachable os) :
    (∀ p ∈ os.processes, (p.state = .finalizado ↔ p.finish_time.isSome = true)) ∧
    (∀ pid, state_of os pid = some .finalizado →
      (∀ pid', state_of (block_process os pid').2 pid = some .finalizado) ∧
      (∀ pid', state_of (unblock_process os pid').2 pid = some .finalizado) ∧
      (∀ (algorithm : String) (fuel : Nat),
        state_of (run_simulation algorithm fuel os).os pid = some .finalizado)) := by
  refine ⟨?_, ?_⟩
  · intro p hp
    exact ((reachable_inv hr).1 p hp).2.2.2.1
  · intro pid h
    refine ⟨fun pid' => state_of_block_finished os pid pid' h,
      fun pid' => state_of_unblock_finished os pid pid' h,
      fun algorithm fuel => ?_⟩
    exact state_of_runAux_finished algorithm.toLower fuel os 0 [] pid
      (reachable_inv hr) h

/-- Witness for C6: the killed process of `osKilled` stays Finished under
a block and under a FIFO run. -/
theorem finished_is_terminal_witness :
    state_of (block_process osKilled 1).2 1 = some .finalizado ∧
    state_of (run_simulation "fifo" 3 osKilled).os 1 = some .finalizado := by
  have h := finished_is_terminal osKilled
    (Reachable.kill _ 1 (Reachable.create _ "P1" 1 100 3 (Reachable.init 2)))
  have h2 := h.2 1 (by decide)
  exact ⟨h2.1 1, h2.2.2 "fifo" 3⟩

/-- Claim C7 (confirmed).  Round-Robin selection pops the queue head until
a Ready process appears: every popped non-Ready pid is removed and — when
the queue held no duplicates — is absent from the queue even after the
engine re-enqueues the selected process to the tail; only the selected
(Ready) process is re-enqueued; and if the queue empties without a Ready
process the selection returns `none` (with the queue left empty). -/
theorem rr_selection_discards (os : OperatingSystem) :
    (∀ (p : Process) (q' : List Nat), select_next_process_rr os = (some p, q') →
      p.state = .pronto ∧
      (rrSelectAndRequeue os).2.rr_queue = q' ++ [p.pid] ∧
      ∃ pre, os.rr_queue = pre ++ p.pid :: q' ∧
        (∀ x ∈ pre, isReadyPid os.processes x = false) ∧
        (os.rr_queue.Nodup → ∀ x ∈ pre, x ∉ q' ++ [p.pid])) ∧
    (∀ q' : List Nat, select_next_process_rr os = (none, q') →
      q' = [] ∧ (rrSelectAndRequeue os).1 = none ∧
      (rrSelectAndRequeue os).2.rr_queue = [] ∧
      ∀ x ∈ os.rr_queue, isReadyPid os.processes x = false) := by
  constructor
  · intro p q' hsel
    obtain ⟨hmem, hst, pre, hdec, hpre⟩ := selectRRAux_some_spec hsel
    refine ⟨hst, ?_, pre, hdec, hpre, ?_⟩
    · unfold rrSelectAndRequeue
      rw [hsel]
    · intro hnd x hx
      rw [hdec] at hnd
      rw [List.nodup_append] at hnd
      intro hmem2
      rcases List.mem_append.1 hmem2 with h1 | h1
      · exact hnd.2.2 hx (List.mem_cons_of_mem _ h1)
      · have hxp : x = p.pid := List.mem_singleton.1 h1
        exact hnd.2.2 hx (hxp ▸ List.mem_cons_self p.pid q')
  · intro q' hsel
    obtain ⟨hq, hall⟩ := selectRRAux_none_spec hsel
    refine ⟨hq, ?_, ?_, hall⟩
    · unfold rrSelectAndRequeue
      rw [hsel]
    · unfold rrSelectAndRequeue
      rw [hsel]
      dsimp only
      exact hq

/-- Witness for C7: in `osRRBlocked` the selection discards blocked P1,
returns Ready P2, and the engine queue becomes `[] ++ [2]`. -/
theorem rr_selection_discards_witness :
    pW2.state = .pronto ∧
    (rrSelectAndRequeue osRRBlocked).2.rr_queue = [] ++ [pW2.pid] := by
  have h := (rr_selection_discards osRRBlocked).1 pW2 [] (by decide)
  exact ⟨h.1, h.2.1⟩

/-- Claim C8 (confirmed).  From the empty session, after creating P1 and
P2 with demand 2 each, `run(rr)` produces exactly the claimed alternating
trace, halts after 4 cycles through the all-finished outcome, and leaves
both processes Finished. -/
theorem rr_trace_acceptance :
    (run_simulation "rr" 10 osRR).trace =
      [⟨1, 1, "P1", 1⟩, ⟨2, 2, "P2", 1⟩, ⟨3, 1, "P1", 0⟩, ⟨4, 2, "P2", 0⟩] ∧
    (run_simulation "rr" 10 osRR).cycles = 4 ∧
    (run_simulation "rr" 10 osRR).reason = .allFinished ∧
    state_of (run_simulation "rr" 10 osRR).os 1 = some .finalizado ∧
    state_of (run_simulation "rr" 10 osRR).os 2 = some .finalizado := by
  rw [run_simulation_eq]
  exact ⟨by decide, by decide, by decide, by decide, by decide⟩

/-- Claim C9 (confirmed).  `run` lowercases the policy name before use, so
it behaves identically on a name and on its lowercase form; in particular
`run("FIFO")` is the same call as `run("fifo")`. -/
theorem run_case_insensitive (algorithm : String) (fuel : Nat) (os : OperatingSystem) :
    run_simulation algorithm fuel os = run_simulation algorithm.toLower fuel os ∧
    run_simulation "FIFO" fuel os = run_simulation "fifo" fuel os := by
  constructor
  · unfold run_simulation
    rw [string_toLower_idem]
  · unfold run_simulation
    rw [show "FIFO".toLower = "fifo" from by rw [string_toLower_data]; decide,
       show "fifo".toLower = "fifo" from by rw [string_toLower_data]; decide]

/-- Claim C10 (confirmed).  The stored quantum is never read: any command
sequence applied to sessions that differ only in the configured quantum
yields identical outputs (notices, run traces, halt outcomes) and final
states that agree on every component except the stored quantum itself. -/
theorem quantum_never_read (q₁ q₂ : Int) (ops : List Op) :
    (execOps (OperatingSystem.init q₁) ops).2 = (execOps (OperatingSystem.init q₂) ops).2 ∧
    (execOps (OperatingSystem.init q₁) ops).1 =
      { (execOps (OperatingSystem.init q₂) ops).1 with quantum := q₁ } := by
  have h : OperatingSystem.init q₁ =
      { OperatingSystem.init q₂ with quantum := q₁ } := rfl
  rw [h, execOps_quantum]
  exact ⟨rfl, rfl⟩
